import Mathlib

/-!
Shallow embedding of the retrieval pipeline in `src/rag_pipeline/functions.py`.

The five Python functions (`tokenize_text`, `get_embedding`, `build_index`,
`retrieve_chunks`, `generate_answer`) are translated to Lean definitions.
External libraries are modelled at their documented interfaces:

* tiktoken: a pinned encode/decode pair.  The model works over the encoded
  token sequence (`List τ`); the decoded text of a chunk is determined by its
  token window, and a chunk's token count is the length of that window (the
  spec's tokenizer-boundary convention, section 6 of the design document).
* numpy / faiss: `faiss.normalize_L2` divides each row by its Euclidean norm
  and leaves zero-norm rows unchanged (`fvec_renorm_L2`'s `nr > 0` guard);
  `IndexFlatIP.search` requires `k > 0` (`FAISS_THROW_IF_NOT(k > 0)` in
  `IndexFlat::search`, raised into Python as an exception), ranks the stored
  rows by decreasing inner product with the query, deterministic ties broken
  towards the smaller row id, and pads the label array with `-1` when `k`
  exceeds the number of stored rows.  The distance array is returned but the
  Python code never reads it, so the model returns the label row only.
* openai: each provider call either yields a value or fails; a call outcome is
  an `Except String` value.  Python exceptions escaping a function are
  modelled by an `Except.error`/`Option.none` return at the model level.

Machine floats are idealised as elements of a linear ordered field; the
numerical claims are stated over the real numbers.
-/

/-! ## Chunker: `tokenize_text` (functions.py lines 9-25) -/

section Chunker

variable {τ : Type*}

/-- Model of the slicing loop `for i in range(0, len(tokens), max_tokens)`
with a positive stride `mt`: consecutive non-overlapping windows of `mt`
tokens, the final window possibly shorter.  The `mt = 0` branch is
unreachable from `tokenize_text` and only serves termination. -/
def chunkify (mt : Nat) : List τ → List (List τ)
  | [] => []
  | x :: xs =>
    if mt = 0 then []
    else (x :: xs).take mt :: chunkify mt ((x :: xs).drop mt)
termination_by l => l.length
decreasing_by
  simp only [List.length_drop, List.length_cons]
  omega

/-- Model of `tokenize_text(text, max_tokens)` over the token sequence
`tokens = tokenizer.encode(text)`.  Python's `range(0, len(tokens), 0)`
raises `ValueError` (zero step), modelled as `none`; a negative stride gives
an empty `range`, so the loop body never runs and `[]` is returned. -/
def tokenize_text (tokens : List τ) (max_tokens : Int) : Option (List (List τ)) :=
  if max_tokens = 0 then none
  else if max_tokens < 0 then some []
  else some (chunkify max_tokens.toNat tokens)

end Chunker

/-! ## Embedder: `get_embedding` (functions.py lines 30-43) -/

/-- Argument passed for the dynamically typed `text` parameter: a Python
string, or any non-string value.  `if not text or not isinstance(text, str)`
returns `None` for the empty string and for every non-string value (falsy or
not) without reaching the provider call. -/
inductive EmbInput where
  | str (s : String)
  | nonStr
deriving DecidableEq

/-- Model of `get_embedding(text, client, EMBEDDING_MODEL)`.  `provider` is
the outcome of the single `client.embeddings.create` request this call would
issue; the second component counts the provider requests actually made.  The
`try`/`except` converts any provider error into a `None` return. -/
def get_embedding {α : Type*} (text : EmbInput) (provider : Except String (List α)) :
    Option (List α) × Nat :=
  match text with
  | .nonStr => (none, 0)
  | .str s =>
    if s = "" then (none, 0)
    else
      match provider with
      | .ok v => (some v, 1)
      | .error _ => (none, 1)

/-! ## Vector arithmetic and the faiss model -/

section Vectors

variable {α : Type*} [LinearOrderedField α] [DecidableEq α]

/-- Inner product of two float rows, as faiss's `METRIC_INNER_PRODUCT`
computes it over the common prefix of the two rows. -/
def ipDot (a b : List α) : α := (List.zipWith (· * ·) a b).sum

/-- Model of `faiss.normalize_L2` on one row: divide by the Euclidean norm
`sqrt (ipDot v v)`, leaving a zero-norm row unchanged (the `nr > 0` guard in
faiss's `fvec_renorm_L2`).  The square root of the ambient field is passed in
(`Real.sqrt` at the reals). -/
def l2normalize (sqrt : α → α) (v : List α) : List α :=
  if ipDot v v = 0 then v else v.map (fun x => x / sqrt (ipDot v v))

/-- Ranking order faiss's exact inner-product search produces on row ids:
higher score first, equal scores in insertion order (smaller id first). -/
def scoreLE (s : List α) (i j : Nat) : Prop :=
  s.getD j 0 < s.getD i 0 ∨ (s.getD i 0 = s.getD j 0 ∧ i ≤ j)

instance scoreLE.decidableRel (s : List α) : DecidableRel (scoreLE s) := by
  intro i j
  unfold scoreLE
  infer_instance

instance scoreLE.isTotal (s : List α) : IsTotal Nat (scoreLE s) := by
  constructor
  intro i j
  rcases lt_trichotomy (s.getD i 0) (s.getD j 0) with h | h | h
  · exact Or.inr (Or.inl h)
  · rcases Nat.le_total i j with hij | hij
    · exact Or.inl (Or.inr ⟨h, hij⟩)
    · exact Or.inr (Or.inr ⟨h.symm, hij⟩)
  · exact Or.inl (Or.inl h)

instance scoreLE.isTrans (s : List α) : IsTrans Nat (scoreLE s) := by
  constructor
  intro i j k hij hjk
  rcases hij with h1 | ⟨h1, hle1⟩
  · rcases hjk with h2 | ⟨h2, _⟩
    · exact Or.inl (h2.trans h1)
    · exact Or.inl (h2 ▸ h1)
  · rcases hjk with h2 | ⟨h2, hle2⟩
    · exact Or.inl (by rw [h1]; exact h2)
    · exact Or.inr ⟨h1.trans h2, hle1.trans hle2⟩

/-- Row ids `0, …, n-1` ranked by decreasing score, stable ties: the order in
which faiss's exact search reports the stored rows. -/
def rankIds (s : List α) : List Nat :=
  List.insertionSort (scoreLE s) (List.range s.length)

/-- Model of `IndexFlatIP.search` on one query row: the stored rows `xb` are
the vectors added at build time, `q` the (already normalized) query row.
`k ≤ 0` raises (`FAISS_THROW_IF_NOT(k > 0)`); otherwise the label row lists
the ranked ids, padded with `-1` up to length `k` when the index holds fewer
than `k` rows.  The distance row is unused by the caller and omitted. -/
def faiss_search (xb : List (List α)) (q : List α) (k : Int) : Except String (List Int) :=
  if k ≤ 0 then Except.error "k > 0"
  else
    Except.ok ((((rankIds (xb.map (fun v => ipDot q v))).take k.toNat).map
        (fun (i : Nat) => (i : Int))) ++
      List.replicate (k.toNat - (rankIds (xb.map (fun v => ipDot q v))).length) (-1))

end Vectors

/-- Python list indexing `xs[i]` for an `int` index: non-negative indices from
the front, negative indices from the back, out of range raises `IndexError`
(modelled `none`). -/
def pythonGet {β : Type*} (xs : List β) (i : Int) : Option β :=
  if 0 ≤ i then xs.get? i.toNat
  else if (-i).toNat ≤ xs.length then xs.get? (xs.length - (-i).toNat)
  else none

/-! ## Index construction: `build_index` (functions.py lines 48-68) -/

section Build

variable {α : Type*} [LinearOrderedField α] [DecidableEq α]

/-- The accumulation loop of `build_index`: walk the chunks in order, calling
`get_embedding` once per chunk; `embed j c` is the outcome of the call made
for the chunk at position `j` (so an arbitrary per-call embedder behaviour is
covered).  Successes are appended to both parallel lists, failures to
neither. -/
def build_collect (embed : Nat → String → Option (List α)) :
    Nat → List String → List (List α) × List String
  | _, [] => ([], [])
  | j, c :: rest =>
    let tail := build_collect embed (j + 1) rest
    match embed j c with
    | some e => (e :: tail.1, c :: tail.2)
    | none => tail

/-- Model of `build_index(chunks, client, EMBEDDING_MODEL)`.  With no
collected embedding it raises `ValueError` (the spec's `BuildFailure`);
otherwise the embedding matrix is L2-normalized row by row
(`faiss.normalize_L2`) and added to a fresh `IndexFlatIP`, so the returned
index stores the normalized rows, paired with the valid chunks.  Provider
vectors are assumed of the model's fixed dimension (spec section 3), so
`np.array(embeddings)` builds a regular matrix. -/
def build_index (sqrt : α → α) (chunks : List String)
    (embed : Nat → String → Option (List α)) :
    Except String (List (List α) × List String) :=
  let p := build_collect embed 0 chunks
  if p.1.isEmpty then
    Except.error "No embeddings generated; check your input texts and API key."
  else
    Except.ok (p.1.map (l2normalize sqrt), p.2)

/-! ## Retrieval: `retrieve_chunks` (functions.py lines 73-85) -/

/-- Model of `retrieve_chunks(client, EMBEDDING_MODEL, query, index, chunks,
top_k)`.  `provider` is the outcome of the embedding request for the query;
`xb` holds the rows stored in `index`.  An embedding failure returns `[]`;
otherwise the query row is normalized and searched, and the comprehension
`[chunks[i] for i in indices[0] if i < len(chunks)]` maps the label row
through Python indexing, keeping labels that pass the `i < len(chunks)`
guard (every label does: real ids are smaller, and `-1` is negative). -/
def retrieve_chunks (sqrt : α → α) (query : EmbInput)
    (provider : Except String (List α)) (xb : List (List α))
    (chunks : List String) (top_k : Int) : Except String (List String) :=
  match (get_embedding query provider).1 with
  | none => Except.ok []
  | some q =>
    match faiss_search xb (l2normalize sqrt q) top_k with
    | Except.error e => Except.error e
    | Except.ok labels =>
      Except.ok ((labels.filter (fun i => i < (chunks.length : Int))).filterMap
        (fun i => pythonGet chunks i))

/-- Definition following the spec's words for `VectorIndex.search` projected
to chunk texts (spec section 4.3/4.4): the stored rows ranked by descending
inner product with the normalized query, ties broken by insertion order, the
first `k` of them reported as their chunk texts. -/
def spec_topk_chunks (xb : List (List α)) (qn : List α) (chunks : List String)
    (k : Nat) : List String :=
  ((rankIds (xb.map (fun v => ipDot qn v))).take k).map (fun i => chunks.getD i "")

end Build

/-! ## Generation: `generate_answer` (functions.py lines 90-126) -/

/-- The prompt string built by `generate_answer` before the provider call:
instructional framing, the context chunks joined with a blank line, and the
user query. -/
def build_prompt (query : String) (context_chunks : List String) : String :=
  let context := String.intercalate "\n\n" context_chunks
  "You are an expert on Argentina's history, culture, and economy. " ++
    "Based solely on the context provided below, answer the user's query succinctly and accurately. " ++
    "If the context does not contain enough information, indicate any gaps in the data.\n\n" ++
    "Context:\n" ++ context ++ "\n\n" ++
    "User Query: " ++ query ++ "\n\n" ++
    "Answer:"

/-- Model of `generate_answer(query, context_chunks, client, CHAT_MODEL)`.
`chat` is the outcome of the single `client.chat.completions.create` request
as a function of the user prompt; the `try`/`except` converts any provider
failure into the fixed apology string. -/
def generate_answer (query : String) (context_chunks : List String)
    (chat : String → Except String String) : String :=
  match chat (build_prompt query context_chunks) with
  | Except.ok answer => answer
  | Except.error _ => "Sorry, I encountered an error generating an answer."

/-! ## Chunker lemmas and claims -/

theorem chunkify_flatten {τ : Type*} (mt : Nat) (h : mt ≠ 0) (l : List τ) :
    (chunkify mt l).flatten = l := by
  obtain ⟨n, hn⟩ : ∃ n, l.length ≤ n := ⟨l.length, le_refl _⟩
  induction n generalizing l with
  | zero =>
    have hl : l = [] := List.eq_nil_of_length_eq_zero (Nat.le_zero.mp hn)
    subst hl
    simp [chunkify]
  | succ n ih =>
    match l with
    | [] => simp [chunkify]
    | x :: xs =>
      rw [chunkify, if_neg h, List.flatten_cons,
        ih ((x :: xs).drop mt) (by simp only [List.length_drop, List.length_cons] at *; omega)]
      exact List.take_append_drop mt (x :: xs)

theorem chunkify_mem_length {τ : Type*} (mt : Nat) (l : List τ) :
    ∀ c ∈ chunkify mt l, c.length ≤ mt := by
  obtain ⟨n, hn⟩ : ∃ n, l.length ≤ n := ⟨l.length, le_refl _⟩
  induction n generalizing l with
  | zero =>
    have hl : l = [] := List.eq_nil_of_length_eq_zero (Nat.le_zero.mp hn)
    subst hl
    simp [chunkify]
  | succ n ih =>
    match l with
    | [] => simp [chunkify]
    | x :: xs =>
      intro c hc
      by_cases h0 : mt = 0
      · rw [chunkify, if_pos h0] at hc
        simp at hc
      · rw [chunkify, if_neg h0] at hc
        rcases List.mem_cons.mp hc with h1 | h1
        · subst h1
          simp [List.length_take]
        · exact ih ((x :: xs).drop mt)
            (by simp only [List.length_drop, List.length_cons] at *; omega) c h1

/-- C5 (amended: budget at least one token): for every token sequence and
every `max_tokens ≥ 1`, `tokenize_text` succeeds, the token counts of the
returned chunks sum to the input's token count, and no chunk's token count
exceeds `max_tokens`. -/
theorem chunker_token_conservation {τ : Type*} (tokens : List τ) (max_tokens : Int)
    (h : 1 ≤ max_tokens) :
    tokenize_text tokens max_tokens ≠ none ∧
    ∀ cs, tokenize_text tokens max_tokens = some cs →
      (cs.map List.length).sum = tokens.length ∧
      ∀ c ∈ cs, (c.length : Int) ≤ max_tokens := by
  have h0 : ¬ max_tokens = 0 := by omega
  have h1 : ¬ max_tokens < 0 := by omega
  have hmt : max_tokens.toNat ≠ 0 := by omega
  unfold tokenize_text
  rw [if_neg h0, if_neg h1]
  refine ⟨by simp, ?_⟩
  intro cs hcs
  have hcs' : cs = chunkify max_tokens.toNat tokens := (Option.some.injEq _ _ ▸ hcs).symm
  subst hcs'
  constructor
  · rw [← List.length_flatten, chunkify_flatten _ hmt]
  · intro c hc
    have := chunkify_mem_length max_tokens.toNat tokens c hc
    omega

/-- C5 counterexample: with `max_tokens = -1` the chunker silently returns no
chunks for a one-token input, so the chunk token counts do not sum to the
input token count. -/
theorem chunker_token_conservation_cex :
    tokenize_text [(0 : Nat)] (-1) = some [] ∧
    (([] : List (List Nat)).map List.length).sum ≠ [(0 : Nat)].length := by
  decide

/-- Witness for C5 at `tokens = [0,1,2]`, `max_tokens = 2`. -/
theorem chunker_token_conservation_witness :
    (1 : Int) ≤ 2 ∧
    (tokenize_text [(0 : Nat), 1, 2] 2 ≠ none ∧
    ∀ cs, tokenize_text [(0 : Nat), 1, 2] 2 = some cs →
      (cs.map List.length).sum = [(0 : Nat), 1, 2].length ∧
      ∀ c ∈ cs, (c.length : Int) ≤ 2) :=
  ⟨by norm_num, chunker_token_conservation [0, 1, 2] 2 (by norm_num)⟩

/-- C10: the chunking loop's stride is `max_tokens`, so `max_tokens = 0`
raises `ValueError` from `range` for every input (empty input included), and
a negative `max_tokens` makes the loop body unreachable, silently returning
no chunks even for non-empty input; the chunker is total only for
`max_tokens ≥ 1`. -/
theorem chunker_budget_guard {τ : Type*} (tokens : List τ) (mt : Int) (h : mt < 0) :
    tokenize_text tokens 0 = none ∧ tokenize_text tokens mt = some [] := by
  constructor
  · simp [tokenize_text]
  · unfold tokenize_text
    rw [if_neg (by omega), if_pos h]

/-- Witness for C10 at a two-token input and `max_tokens = -1`. -/
theorem chunker_budget_guard_witness :
    ((-1 : Int) < 0) ∧
    (tokenize_text [(0 : Nat), 1] 0 = none ∧ tokenize_text [(0 : Nat), 1] (-1) = some []) :=
  ⟨by norm_num, chunker_budget_guard [0, 1] (-1) (by norm_num)⟩

/-! ## Embedder claim -/

/-- C6: the embedder never raises; an empty-string or non-string input
returns the failure value with no provider request; otherwise exactly one
request is made, a provider success returns its vector, and any provider
error is caught and returned as the failure value. -/
theorem embedder_total_behavior {α : Type*} (input : EmbInput)
    (provider : Except String (List α)) :
    ((input = EmbInput.nonStr ∨ input = EmbInput.str "") →
      get_embedding input provider = (none, 0)) ∧
    ∀ s : String, input = EmbInput.str s → s ≠ "" →
      (∀ v, provider = Except.ok v → get_embedding input provider = (some v, 1)) ∧
      (∀ e, provider = Except.error e → get_embedding input provider = (none, 1)) := by
  constructor
  · rintro (rfl | rfl) <;> simp [get_embedding]
  · rintro s rfl hs
    constructor
    · rintro v rfl
      simp [get_embedding, hs]
    · rintro e rfl
      simp [get_embedding, hs]

/-- Witness for C6: a non-empty string with a succeeding provider yields the
provider's vector from one request, and the empty string makes no request. -/
theorem embedder_total_behavior_witness :
    get_embedding (EmbInput.str "hi") (Except.ok [(1 : ℚ)]) = (some [1], 1) ∧
    get_embedding (EmbInput.str "") (Except.ok [(1 : ℚ)]) = (none, 0) :=
  ⟨((embedder_total_behavior (EmbInput.str "hi") (Except.ok [1])).2 "hi" rfl
      (by decide)).1 [1] rfl,
    (embedder_total_behavior (EmbInput.str "") (Except.ok [(1 : ℚ)])).1 (Or.inr rfl)⟩

/-! ## Retriever degradation claim -/

/-- C7: whenever embedding the query fails, the retriever returns an empty
chunk sequence (a successful return, not an error value and not an
exception), for every index, chunk list and `top_k`. -/
theorem retriever_embed_failure_empty {α : Type*} [LinearOrderedField α]
    [DecidableEq α] (sqrt : α → α) (query : EmbInput)
    (provider : Except String (List α)) (xb : List (List α))
    (chunks : List String) (top_k : Int)
    (h : (get_embedding query provider).1 = none) :
    retrieve_chunks sqrt query provider xb chunks top_k = Except.ok [] := by
  simp [retrieve_chunks, h]

/-- Witness for C7: an empty query string makes the embedding fail, and
retrieval over a one-vector index returns the empty sequence. -/
theorem retriever_embed_failure_empty_witness :
    (get_embedding (EmbInput.str "") (Except.ok [(1 : ℚ)])).1 = none ∧
    retrieve_chunks (fun x : ℚ => x) (EmbInput.str "") (Except.ok [1])
      [[1]] ["a"] 5 = Except.ok [] :=
  ⟨rfl, retriever_embed_failure_empty (fun x : ℚ => x) (EmbInput.str "")
    (Except.ok [1]) [[1]] ["a"] 5 rfl⟩

/-! ## Generation claim -/

/-- C8: the answer synthesizer never raises for any query and any context
chunk sequence (the empty one included): a provider success returns the
generated text, and any provider failure returns the fixed apology string. -/
theorem generate_answer_no_raise (query : String) (context_chunks : List String)
    (chat : String → Except String String) :
    (∀ a, chat (build_prompt query context_chunks) = Except.ok a →
      generate_answer query context_chunks chat = a) ∧
    (∀ e, chat (build_prompt query context_chunks) = Except.error e →
      generate_answer query context_chunks chat =
        "Sorry, I encountered an error generating an answer.") := by
  constructor
  · intro a ha
    simp [generate_answer, ha]
  · intro e he
    simp [generate_answer, he]

/-- Witness for C8 with empty context: a failing provider yields the apology
string, a succeeding one yields its text. -/
theorem generate_answer_no_raise_witness :
    generate_answer "q" [] (fun _ => Except.error "boom") =
      "Sorry, I encountered an error generating an answer." ∧
    generate_answer "q" [] (fun _ => Except.ok "hi") = "hi" :=
  ⟨(generate_answer_no_raise "q" [] (fun _ => Except.error "boom")).2 "boom" rfl,
    (generate_answer_no_raise "q" [] (fun _ => Except.ok "hi")).1 "hi" rfl⟩

/-! ## Build lemmas and claims -/

theorem build_collect_fst {α : Type*} (embed : Nat → String → Option (List α)) :
    ∀ (i : Nat) (l : List String),
      (build_collect embed i l).1 = (l.enumFrom i).filterMap (fun p => embed p.1 p.2) := by
  intro i l
  induction l generalizing i with
  | nil => simp [build_collect]
  | cons c rest ih =>
    simp only [build_collect, List.enumFrom, List.filterMap_cons]
    cases h : embed i c with
    | some e => simp [h, ih]
    | none => simp [h, ih]

theorem build_collect_snd {α : Type*} (embed : Nat → String → Option (List α)) :
    ∀ (i : Nat) (l : List String),
      (build_collect embed i l).2 = (l.enumFrom i).filterMap
        (fun p => if (embed p.1 p.2).isSome then some p.2 else none) := by
  intro i l
  induction l generalizing i with
  | nil => simp [build_collect]
  | cons c rest ih =>
    simp only [build_collect, List.enumFrom, List.filterMap_cons]
    cases h : embed i c with
    | some e => simp [h, ih]
    | none => simp [h, ih]

theorem build_collect_zip {α : Type*} (embed : Nat → String → Option (List α)) :
    ∀ (i : Nat) (l : List String),
      ((build_collect embed i l).1).zip (build_collect embed i l).2 =
        (l.enumFrom i).filterMap (fun p => (embed p.1 p.2).map (fun e => (e, p.2))) := by
  intro i l
  induction l generalizing i with
  | nil => simp [build_collect]
  | cons c rest ih =>
    simp only [build_collect, List.enumFrom, List.filterMap_cons]
    cases h : embed i c with
    | some e => simp [h, ih]
    | none => simp [h, ih]

theorem build_collect_length {α : Type*} (embed : Nat → String → Option (List α)) :
    ∀ (i : Nat) (l : List String),
      (build_collect embed i l).1.length = (build_collect embed i l).2.length := by
  intro i l
  induction l generalizing i with
  | nil => simp [build_collect]
  | cons c rest ih =>
    simp only [build_collect]
    cases h : embed i c with
    | some e => simp [ih]
    | none => simp [ih]

/-- C3: for every chunk sequence and every per-call embedder behaviour, a
successful build returns equally long vector and chunk lists; the kept chunks
are exactly those whose embedding succeeded, in source order; and the `i`-th
stored vector is the normalized embedding of the `i`-th kept chunk. -/
theorem build_index_alignment {α : Type*} [LinearOrderedField α] [DecidableEq α]
    (sqrt : α → α) (chunks : List String) (embed : Nat → String → Option (List α))
    (vs : List (List α)) (cs : List String)
    (h : build_index sqrt chunks embed = Except.ok (vs, cs)) :
    vs.length = cs.length ∧
    cs = (chunks.enumFrom 0).filterMap
      (fun p => if (embed p.1 p.2).isSome then some p.2 else none) ∧
    vs.zip cs = (chunks.enumFrom 0).filterMap
      (fun p => (embed p.1 p.2).map (fun e => (l2normalize sqrt e, p.2))) := by
  unfold build_index at h
  by_cases he : (build_collect embed 0 chunks).1.isEmpty
  · rw [if_pos he] at h
    exact absurd h (by simp)
  · rw [if_neg he] at h
    rw [Except.ok.injEq, Prod.mk.injEq] at h
    obtain ⟨hv, hc⟩ := h
    refine ⟨?_, ?_, ?_⟩
    · rw [← hv, ← hc, List.length_map, build_collect_length]
    · rw [← hc, build_collect_snd]
    · rw [← hv, ← hc, List.zip_map_left, build_collect_zip, List.map_filterMap]
      congr 1
      funext p
      cases embed p.1 p.2 <;> simp [Prod.map]

/-- Witness for C3 at a one-chunk build whose embedding succeeds. -/
theorem build_index_alignment_witness :
    build_index (fun x : ℚ => x) ["a"] (fun _ _ => some [1]) =
      Except.ok ([[(1 : ℚ)]], ["a"]) ∧
    ([[(1 : ℚ)]].length = ["a"].length ∧
    ["a"] = ((["a"].enumFrom 0).filterMap
      (fun p => if ((fun (_ : Nat) (_ : String) => some [(1 : ℚ)]) p.1 p.2).isSome
        then some p.2 else none)) ∧
    [[(1 : ℚ)]].zip ["a"] = (["a"].enumFrom 0).filterMap
      (fun p => ((fun (_ : Nat) (_ : String) => some [(1 : ℚ)]) p.1 p.2).map
        (fun e => (l2normalize (fun x : ℚ => x) e, p.2)))) :=
  ⟨by norm_num [build_index, build_collect, l2normalize, ipDot],
    build_index_alignment (fun x : ℚ => x) ["a"] (fun _ _ => some [1]) [[(1 : ℚ)]] ["a"]
      (by norm_num [build_index, build_collect, l2normalize, ipDot])⟩

theorem build_collect_all_fail {α : Type*} (embed : Nat → String → Option (List α)) :
    ∀ (i : Nat) (l : List String),
      (∀ j c, l.get? j = some c → embed (i + j) c = none) →
      build_collect embed i l = ([], []) := by
  intro i l
  induction l generalizing i with
  | nil => intro _; rfl
  | cons c rest ih =>
    intro h
    have h0 : embed i c = none := by
      have := h 0 c rfl
      simpa using this
    have htail : build_collect embed (i + 1) rest = ([], []) := by
      refine ih (i + 1) ?_
      intro j d hj
      have := h (j + 1) d (by simpa using hj)
      have harith : i + 1 + j = i + (j + 1) := by omega
      rw [harith]
      exact this
    simp [build_collect, h0, htail]

theorem build_collect_success_nonempty {α : Type*}
    (embed : Nat → String → Option (List α)) :
    ∀ (i : Nat) (l : List String) (j : Nat) (c : String),
      l.get? j = some c → (embed (i + j) c).isSome →
      (build_collect embed i l).1 ≠ [] := by
  intro i l
  induction l generalizing i with
  | nil =>
    intro j c hj
    simp at hj
  | cons c0 rest ih =>
    intro j c hj hs
    match j with
    | 0 =>
      rw [List.get?] at hj
      have hc : c0 = c := by simpa using hj
      subst hc
      rw [Nat.add_zero] at hs
      cases h : embed i c0 with
      | none => rw [h] at hs; simp at hs
      | some e => simp [build_collect, h]
    | j + 1 =>
      have hj' : rest.get? j = some c := by simpa using hj
      have hs' : (embed (i + 1 + j) c).isSome := by
        have harith : i + 1 + j = i + (j + 1) := by omega
        rw [harith]
        exact hs
      have := ih (i + 1) j c hj' hs'
      cases h : embed i c0 with
      | none => simpa [build_collect, h] using this
      | some e => simp [build_collect, h]

/-- C4: a build over which every embedding call fails raises the build
failure (`ValueError`, the spec's `BuildFailure`) and never yields an empty
valid index; a build with at least one successful embedding returns a valid
index with a non-empty vector store. -/
theorem build_index_failure_semantics {α : Type*} [LinearOrderedField α]
    [DecidableEq α] (sqrt : α → α) (chunks : List String)
    (embed : Nat → String → Option (List α)) :
    ((∀ j c, chunks.get? j = some c → embed j c = none) →
      build_index sqrt chunks embed =
        Except.error "No embeddings generated; check your input texts and API key.") ∧
    (∀ j c, chunks.get? j = some c → (embed j c).isSome →
      ∃ vs cs, build_index sqrt chunks embed = Except.ok (vs, cs) ∧ vs ≠ []) := by
  constructor
  · intro h
    have hcoll := build_collect_all_fail embed 0 chunks
      (fun j c hj => by simpa using h j c hj)
    simp [build_index, hcoll]
  · intro j c hj hs
    have hne := build_collect_success_nonempty embed 0 chunks j c hj
      (by simpa using hs)
    refine ⟨(build_collect embed 0 chunks).1.map (l2normalize sqrt),
      (build_collect embed 0 chunks).2, ?_, by simpa using hne⟩
    rw [build_index, if_neg (by simpa using hne)]

/-- Witness for C4: an all-failing one-chunk build errors; a succeeding one
returns a non-empty index. -/
theorem build_index_failure_semantics_witness :
    build_index (fun x : ℚ => x) ["a"] (fun _ _ => none) =
      Except.error "No embeddings generated; check your input texts and API key." ∧
    ∃ vs cs, build_index (fun x : ℚ => x) ["a"] (fun _ _ => some [(1 : ℚ)]) =
      Except.ok (vs, cs) ∧ vs ≠ [] :=
  ⟨(build_index_failure_semantics (fun x : ℚ => x) ["a"] (fun _ _ => none)).1
      (fun _ _ _ => rfl),
    (build_index_failure_semantics (fun x : ℚ => x) ["a"]
      (fun _ _ => some [(1 : ℚ)])).2 0 "a" rfl rfl⟩

/-! ## Ranking lemmas and retrieval claims -/

theorem pythonGet_ofNat {β : Type*} (xs : List β) (i : Nat) (h : i < xs.length) (d : β) :
    pythonGet xs (i : Int) = some (xs.getD i d) := by
  unfold pythonGet
  rw [if_pos (by exact_mod_cast Int.ofNat_nonneg i)]
  have h2 : xs.get? ((i : Int)).toNat = xs.get? i := by norm_num
  rw [h2, List.getD_eq_getElem?_getD, ← List.get?_eq_getElem?]
  cases h3 : xs.get? i with
  | none => exact absurd (List.get?_eq_none.mp h3) (by omega)
  | some a => rfl

theorem filterMap_eq_map_of_forall {β γ : Type*} (l : List β) (g : β → Option γ)
    (f : β → γ) (h : ∀ a ∈ l, g a = some (f a)) : l.filterMap g = l.map f := by
  induction l with
  | nil => rfl
  | cons a l ih =>
    rw [List.filterMap_cons, h a (List.mem_cons_self a l), List.map_cons,
      ih (fun b hb => h b (List.mem_cons_of_mem a hb))]

theorem rankIds_perm {α : Type*} [LinearOrderedField α] [DecidableEq α] (s : List α) :
    (rankIds s).Perm (List.range s.length) :=
  List.perm_insertionSort _ _

theorem rankIds_sorted {α : Type*} [LinearOrderedField α] [DecidableEq α] (s : List α) :
    List.Sorted (scoreLE s) (rankIds s) :=
  List.sorted_insertionSort _ _

theorem rankIds_length {α : Type*} [LinearOrderedField α] [DecidableEq α] (s : List α) :
    (rankIds s).length = s.length := by
  rw [(rankIds_perm s).length_eq, List.length_range]

theorem rankIds_mem_lt {α : Type*} [LinearOrderedField α] [DecidableEq α]
    (s : List α) {i : Nat} (h : i ∈ rankIds s) : i < s.length :=
  List.mem_range.mp ((rankIds_perm s).mem_iff.mp h)

/-- C2 (amended: `1 ≤ k ≤` index size): a retrieval whose query embedding
succeeds returns exactly the spec-side top-`k` — the stored rows ranked by
descending inner product with the normalized query, ties broken by insertion
order — projected to chunk texts; the ranking is `scoreLE`-sorted (descending
score, insertion order on ties) and ranges over every stored row exactly
once. -/
theorem retrieve_topk_matches_spec {α : Type*} [LinearOrderedField α] [DecidableEq α]
    (sqrt : α → α) (s : String) (qv : List α) (xb : List (List α))
    (chunks : List String) (k : Int) (hs : s ≠ "")
    (hlen : xb.length = chunks.length) (hk1 : 1 ≤ k) (hkn : k.toNat ≤ xb.length) :
    retrieve_chunks sqrt (EmbInput.str s) (Except.ok qv) xb chunks k =
      Except.ok (spec_topk_chunks xb (l2normalize sqrt qv) chunks k.toNat) ∧
    List.Sorted (scoreLE (xb.map (fun v => ipDot (l2normalize sqrt qv) v)))
      (rankIds (xb.map (fun v => ipDot (l2normalize sqrt qv) v))) ∧
    (rankIds (xb.map (fun v => ipDot (l2normalize sqrt qv) v))).Perm
      (List.range xb.length) := by
  refine ⟨?_, rankIds_sorted (xb.map (fun v => ipDot (l2normalize sqrt qv) v)),
    by simpa using rankIds_perm (xb.map (fun v => ipDot (l2normalize sqrt qv) v))⟩
  have hge : (get_embedding (EmbInput.str s) (Except.ok qv)).1 = some qv := by
    simp [get_embedding, hs]
  have hk0 : ¬ k ≤ 0 := by omega
  have hslen : (xb.map (fun v => ipDot (l2normalize sqrt qv) v)).length = xb.length :=
    List.length_map _ _
  have hfs : faiss_search xb (l2normalize sqrt qv) k =
      Except.ok (((rankIds (xb.map (fun v => ipDot (l2normalize sqrt qv) v))).take
        k.toNat).map (fun (i : Nat) => (i : Int))) := by
    rw [faiss_search, if_neg hk0]
    have hz : k.toNat - (rankIds (xb.map (fun v => ipDot (l2normalize sqrt qv) v))).length
        = 0 := by
      rw [rankIds_length, hslen]
      omega
    rw [hz, List.replicate_zero, List.append_nil]
  have hmem : ∀ i ∈ (rankIds (xb.map (fun v => ipDot (l2normalize sqrt qv) v))).take
      k.toNat, i < chunks.length := by
    intro i hi
    have := rankIds_mem_lt _ (List.mem_of_mem_take hi)
    rw [hslen] at this
    omega
  have hfilter : (((rankIds (xb.map (fun v => ipDot (l2normalize sqrt qv) v))).take
      k.toNat).map (fun (i : Nat) => (i : Int))).filter (fun i => i < (chunks.length : Int)) =
      ((rankIds (xb.map (fun v => ipDot (l2normalize sqrt qv) v))).take
        k.toNat).map (fun (i : Nat) => (i : Int)) := by
    apply List.filter_eq_self.mpr
    intro a ha
    obtain ⟨i, hi, rfl⟩ := List.mem_map.mp ha
    simpa using hmem i hi
  have hfm : (((rankIds (xb.map (fun v => ipDot (l2normalize sqrt qv) v))).take
      k.toNat).map (fun (i : Nat) => (i : Int))).filterMap (fun i => pythonGet chunks i) =
      ((rankIds (xb.map (fun v => ipDot (l2normalize sqrt qv) v))).take
        k.toNat).map (fun i => chunks.getD i "") := by
    rw [List.filterMap_map]
    exact filterMap_eq_map_of_forall _ _ _
      (fun i hi => pythonGet_ofNat chunks i (hmem i hi) "")
  simp only [retrieve_chunks, hge, hfs]
  rw [hfilter, hfm]
  rfl

/-- C2 counterexample: with two requested results over a one-row index, the
code returns two entries (the `-1` padding label resolves to the last chunk
through Python negative indexing), not the ranked stored entries the claim
describes, which are computed by `spec_topk_chunks`. -/
theorem retrieve_topk_matches_spec_cex :
    retrieve_chunks (fun x : ℚ => x) (EmbInput.str "q") (Except.ok [1]) [[1]] ["a"] 2 =
      Except.ok ["a", "a"] ∧
    spec_topk_chunks [[(1 : ℚ)]] (l2normalize (fun x : ℚ => x) [1]) ["a"] 2 = ["a"] ∧
    (["a", "a"] : List String) ≠ ["a"] := by
  refine ⟨?_, ?_, by decide⟩
  · have h : (get_embedding (EmbInput.str "q") (Except.ok [(1 : ℚ)])).1 = some [1] := by
      simp [get_embedding]
    rw [retrieve_chunks, h]
    norm_num [faiss_search, rankIds, scoreLE, l2normalize, ipDot, List.insertionSort,
      List.orderedInsert, pythonGet, List.range_succ]
    decide
  · norm_num [spec_topk_chunks, rankIds, scoreLE, l2normalize, ipDot,
      List.insertionSort, List.orderedInsert, List.range_succ]

/-- Witness for C2 at a two-row index, `k = 1`: the higher-scoring second row
is returned first. -/
theorem retrieve_topk_matches_spec_witness :
    ("q" ≠ "" ∧ ([[(1 : ℚ)], [2]] : List (List ℚ)).length = ["a", "b"].length ∧
      (1 : Int) ≤ 1 ∧ (1 : Int).toNat ≤ ([[(1 : ℚ)], [2]] : List (List ℚ)).length) ∧
    (retrieve_chunks (fun x : ℚ => x) (EmbInput.str "q") (Except.ok [1]) [[1], [2]]
        ["a", "b"] 1 =
      Except.ok (spec_topk_chunks [[(1 : ℚ)], [2]]
        (l2normalize (fun x : ℚ => x) [1]) ["a", "b"] (1 : Int).toNat) ∧
    List.Sorted (scoreLE ([[(1 : ℚ)], [2]].map
        (fun v => ipDot (l2normalize (fun x : ℚ => x) [1]) v)))
      (rankIds ([[(1 : ℚ)], [2]].map
        (fun v => ipDot (l2normalize (fun x : ℚ => x) [1]) v))) ∧
    (rankIds ([[(1 : ℚ)], [2]].map
        (fun v => ipDot (l2normalize (fun x : ℚ => x) [1]) v))).Perm
      (List.range ([[(1 : ℚ)], [2]] : List (List ℚ)).length)) :=
  ⟨⟨by decide, rfl, by norm_num, by decide⟩,
    retrieve_topk_matches_spec (fun x : ℚ => x) "q" [1] [[1], [2]] ["a", "b"] 1
      (by decide) rfl (by norm_num) (by decide)⟩

/-- C1: behaviour of the code at the clamping boundaries the claim describes.
With `top_k = 2` over a one-row index the retrieval returns two entries — the
stored chunk and a duplicate of the last chunk produced by faiss's `-1`
padding label passing the `i < len(chunks)` guard and indexing from the back —
instead of all (one) stored entries.  With `top_k = 0` the faiss call raises
instead of returning an empty sequence. -/
theorem retrieve_clamp_code_behavior :
    retrieve_chunks (fun x : ℚ => x) (EmbInput.str "q") (Except.ok [1]) [[1]] ["a"] 2 =
      Except.ok ["a", "a"] ∧
    retrieve_chunks (fun x : ℚ => x) (EmbInput.str "q") (Except.ok [1]) [[1]] ["a"] 0 =
      Except.error "k > 0" := by
  constructor
  · have h : (get_embedding (EmbInput.str "q") (Except.ok [(1 : ℚ)])).1 = some [1] := by
      simp [get_embedding]
    rw [retrieve_chunks, h]
    norm_num [faiss_search, rankIds, scoreLE, l2normalize, ipDot, List.insertionSort,
      List.orderedInsert, pythonGet, List.range_succ]
    decide
  · have h : (get_embedding (EmbInput.str "q") (Except.ok [(1 : ℚ)])).1 = some [1] := by
      simp [get_embedding]
    rw [retrieve_chunks, h]
    norm_num [faiss_search]

/-! ## Real-number similarity claim -/

theorem ipDot_nil_left {α : Type*} [LinearOrderedField α] [DecidableEq α]
    (b : List α) : ipDot ([] : List α) b = 0 := by
  simp [ipDot]

theorem ipDot_nil_right {α : Type*} [LinearOrderedField α] [DecidableEq α]
    (a : List α) : ipDot a ([] : List α) = 0 := by
  simp [ipDot]

theorem ipDot_cons {α : Type*} [LinearOrderedField α] [DecidableEq α]
    (x y : α) (a b : List α) : ipDot (x :: a) (y :: b) = x * y + ipDot a b := by
  simp [ipDot]

theorem ipDot_self_nonneg {α : Type*} [LinearOrderedField α] [DecidableEq α]
    (a : List α) : 0 ≤ ipDot a a := by
  induction a with
  | nil => simp [ipDot]
  | cons x xs ih =>
    rw [ipDot_cons]
    nlinarith [mul_self_nonneg x]

theorem ipDot_cross {α : Type*} [LinearOrderedField α] [DecidableEq α] (x y : α) :
    ∀ (a b : List α), 2 * (x * y * ipDot a b) ≤ x ^ 2 * ipDot b b + y ^ 2 * ipDot a a := by
  intro a
  induction a with
  | nil =>
    intro b
    rw [ipDot_nil_left, ipDot_nil_right]
    nlinarith [ipDot_self_nonneg b, sq_nonneg x]
  | cons u ua ih =>
    intro b
    cases b with
    | nil =>
      rw [ipDot_nil_right, ipDot_nil_left]
      nlinarith [ipDot_self_nonneg (u :: ua), sq_nonneg y]
    | cons v vb =>
      rw [ipDot_cons, ipDot_cons, ipDot_cons]
      nlinarith [ih vb, sq_nonneg (x * v - y * u)]

theorem ipDot_sq_le {α : Type*} [LinearOrderedField α] [DecidableEq α] :
    ∀ (a b : List α), (ipDot a b) ^ 2 ≤ ipDot a a * ipDot b b := by
  intro a
  induction a with
  | nil =>
    intro b
    simp only [ipDot_nil_left]
    norm_num
  | cons u ua ih =>
    intro b
    cases b with
    | nil =>
      rw [ipDot_nil_right, ipDot_nil_right]
      nlinarith [ipDot_self_nonneg (u :: ua)]
    | cons v vb =>
      rw [ipDot_cons, ipDot_cons, ipDot_cons]
      nlinarith [ih vb, ipDot_cross u v ua vb, ipDot_self_nonneg ua,
        ipDot_self_nonneg vb, sq_nonneg (u * v)]

theorem ipDot_map_div {α : Type*} [LinearOrderedField α] [DecidableEq α] (c d : α) :
    ∀ (a b : List α),
      ipDot (a.map (fun x => x / c)) (b.map (fun x => x / d)) = ipDot a b / (c * d) := by
  intro a
  induction a with
  | nil =>
    intro b
    simp [ipDot]
  | cons u ua ih =>
    intro b
    cases b with
    | nil => simp [ipDot]
    | cons v vb =>
      simp only [List.map_cons]
      rw [ipDot_cons, ipDot_cons, ih vb, div_mul_div_comm, div_add_div_same]

/-- C9: over the reals, a successful build stores exactly the L2-normalized
raw embeddings (normalization happens before storage, `Real.sqrt` being the
Euclidean-norm square root; the query is normalized by the same
`l2normalize Real.sqrt` inside `retrieve_chunks`), and for any two vectors of
nonzero squared norm the inner product of their normalizations equals their
cosine similarity and lies in `[-1, 1]`. -/
theorem normalized_similarity_cosine (chunks : List String)
    (embed : Nat → String → Option (List ℝ)) (vs : List (List ℝ)) (cs : List String)
    (hb : build_index Real.sqrt chunks embed = Except.ok (vs, cs))
    (a b : List ℝ) (ha : ipDot a a ≠ 0) (hbb : ipDot b b ≠ 0) :
    vs = ((chunks.enumFrom 0).filterMap (fun p => embed p.1 p.2)).map
      (l2normalize Real.sqrt) ∧
    ipDot (l2normalize Real.sqrt a) (l2normalize Real.sqrt b) =
      ipDot a b / (Real.sqrt (ipDot a a) * Real.sqrt (ipDot b b)) ∧
    -1 ≤ ipDot (l2normalize Real.sqrt a) (l2normalize Real.sqrt b) ∧
    ipDot (l2normalize Real.sqrt a) (l2normalize Real.sqrt b) ≤ 1 := by
  have hcos : ipDot (l2normalize Real.sqrt a) (l2normalize Real.sqrt b) =
      ipDot a b / (Real.sqrt (ipDot a a) * Real.sqrt (ipDot b b)) := by
    rw [l2normalize, if_neg ha, l2normalize, if_neg hbb, ipDot_map_div]
  have hapos : 0 < ipDot a a := lt_of_le_of_ne (ipDot_self_nonneg a) (Ne.symm ha)
  have hbpos : 0 < ipDot b b := lt_of_le_of_ne (ipDot_self_nonneg b) (Ne.symm hbb)
  have hsp : 0 < Real.sqrt (ipDot a a) * Real.sqrt (ipDot b b) :=
    mul_pos (Real.sqrt_pos.mpr hapos) (Real.sqrt_pos.mpr hbpos)
  have habs : |ipDot a b| ≤ Real.sqrt (ipDot a a) * Real.sqrt (ipDot b b) := by
    have h1 : |ipDot a b| = Real.sqrt ((ipDot a b) ^ 2) := (Real.sqrt_sq_eq_abs _).symm
    rw [h1, ← Real.sqrt_mul hapos.le]
    exact Real.sqrt_le_sqrt (ipDot_sq_le a b)
  have hbound : |ipDot (l2normalize Real.sqrt a) (l2normalize Real.sqrt b)| ≤ 1 := by
    rw [hcos, abs_div, abs_of_pos hsp]
    rw [div_le_one hsp]
    exact habs
  refine ⟨?_, hcos, (abs_le.mp hbound).1, (abs_le.mp hbound).2⟩
  unfold build_index at hb
  by_cases he : (build_collect embed 0 chunks).1.isEmpty
  · rw [if_pos he] at hb
    exact absurd hb (by simp)
  · rw [if_neg he] at hb
    rw [Except.ok.injEq, Prod.mk.injEq] at hb
    rw [← hb.1, build_collect_fst]

/-- Witness for C9 at a one-chunk build with embedding `[1]` and the pair
`a = b = [1]`. -/
theorem normalized_similarity_cosine_witness :
    (build_index Real.sqrt ["x"] (fun _ _ => some [1]) =
        Except.ok ([[(1 : ℝ)]], ["x"]) ∧
      ipDot [(1 : ℝ)] [1] ≠ 0) ∧
    ([[(1 : ℝ)]] = (((["x"].enumFrom 0).filterMap
        (fun p => (fun (_ : Nat) (_ : String) => some [(1 : ℝ)]) p.1 p.2)).map
      (l2normalize Real.sqrt)) ∧
    ipDot (l2normalize Real.sqrt [(1 : ℝ)]) (l2normalize Real.sqrt [(1 : ℝ)]) =
      ipDot [(1 : ℝ)] [1] /
        (Real.sqrt (ipDot [(1 : ℝ)] [1]) * Real.sqrt (ipDot [(1 : ℝ)] [1])) ∧
    -1 ≤ ipDot (l2normalize Real.sqrt [(1 : ℝ)]) (l2normalize Real.sqrt [(1 : ℝ)]) ∧
    ipDot (l2normalize Real.sqrt [(1 : ℝ)]) (l2normalize Real.sqrt [(1 : ℝ)]) ≤ 1) :=
  ⟨⟨by norm_num [build_index, build_collect, l2normalize, ipDot, Real.sqrt_one],
      by norm_num [ipDot]⟩,
    normalized_similarity_cosine ["x"] (fun _ _ => some [1]) [[(1 : ℝ)]] ["x"]
      (by norm_num [build_index, build_collect, l2normalize, ipDot, Real.sqrt_one])
      [1] [1] (by norm_num [ipDot]) (by norm_num [ipDot])⟩
